import Mathlib

/-!
Verification of the network-scanner backend's scan-orchestration core.

The definitions below are a shallow embedding of the Python sources:
 - `backend/app/scanner/orchestrator.py` (scan pipeline, per-host workers),
 - `backend/app/scanner/nmap_runner.py` (`discover_hosts`),
 - `backend/app/scanner/stuck_scan_monitor.py` (`check_and_fix_stuck_scans`),
 - `backend/app/scheduler/scheduler.py` (`trigger_schedule`,
   `_execute_scheduled_scan`, `_cleanup_old_data`),
 - `backend/app/schemas/settings.py` / `backend/app/main.py` (settings).

Database state is modelled as explicit lists of rows; timestamps are
integers (`datetime.utcnow()` becomes an abstract `now : Int` passed in);
exceptions of the embedded code become `Except`/`Option` values or an
explicit outcome parameter where the code catches them.
-/

namespace NetScan

/-- `ScanStatus` enum from `backend/app/models/scan.py`. -/
inductive ScanStatus where
  | pending | running | completed | failed | cancelled
  deriving DecidableEq, Repr

/-- `HostScanStatus` enum from `backend/app/models/host.py`. -/
inductive HostScanStatus where
  | pending | scanning | completed | failed
  deriving DecidableEq, Repr

/-- One parsed port record as produced by `parse_nmap_xml`
(`backend/app/scanner/parser.py`, lines 133-143).  Only open ports are
appended by the parser; the service-detail fields that no claim touches
(product, version, extrainfo, cpe, script_output) are elided. -/
structure PortData where
  port : String
  protocol : String
  service : String
  deriving DecidableEq, Repr

/-- One parsed host record (`host_data` dictionary) as produced by
`parse_nmap_xml`.  The parser initialises `ip`, `mac`, `os`, `hostname`,
`vendor`, `vm_type` to the empty string, `ports` to the empty list,
`os_accuracy` to 0 and `is_vm` to false, so absence is the empty
string/list here exactly as in the Python dictionary.  Fields no claim
touches (uptime, last_boot, distance, cpe, traceroute) are elided. -/
structure HostData where
  ip : String := ""
  hostname : String := ""
  mac : String := ""
  vendor : String := ""
  os : String := ""
  osAccuracy : Nat := 0
  isVm : Bool := false
  vmType : String := ""
  ports : List PortData := []
  deriving DecidableEq, Repr

/-- A row of the `hosts` table (`backend/app/models/host.py`).  Nullable
columns are `Option`; `ports_discovered` and `scan_progress_percent`
default to 0 and `scan_status` to `pending`, as in the model. -/
structure HostRow where
  id : Nat
  scanId : Nat
  ip : String
  hostname : Option String := none
  mac : Option String := none
  vendor : Option String := none
  os : Option String := none
  osAccuracy : Option Nat := none
  isVm : Bool := false
  vmType : Option String := none
  portsDiscovered : Nat := 0
  scanStatus : HostScanStatus := .pending
  scanStartedAt : Option Int := none
  scanCompletedAt : Option Int := none
  scanProgressPercent : Nat := 0
  scanErrorMessage : Option String := none
  deriving DecidableEq, Repr

/-! ## Claim C1 — progress_percent writes of one `execute_scan`

`execute_scan` (orchestrator.py) writes `scan.progress_percent` at fixed
points; `_run_parallel_host_scans` adds one write per drained worker
future.  The full write sequence of one successful execution is listed by
`progressWrites`.  Python's `int((idx / n) * 15)` and
`20 + int((c / total) * 70)` truncate toward zero; on the magnitudes
involved (numerator ≤ 15·n resp. 70·total with exact small floats) this
agrees with natural-number division. -/

/-- Values written in the discovery loop (orchestrator.py line 65-66):
`int((idx / len(networks)) * 15)` for each network index. -/
def discoveryWrites (numNetworks : Nat) : List Nat :=
  (List.range numNetworks).map (fun idx => idx * 15 / numNetworks)

/-- Values written as worker futures drain (orchestrator.py lines 354-357):
`20 + int((completed_hosts / total_hosts) * 70)` for
`completed_hosts = 1 .. total_hosts` (every worker returns normally:
per-host failures are caught inside the worker). -/
def hostLoopWrites (totalHosts : Nat) : List Nat :=
  (List.range totalHosts).map (fun c => 20 + (c + 1) * 70 / totalHosts)

/-- Every write of `scan.progress_percent` made by the orchestrator during
one successful `execute_scan`, in program order: 0 at start (line 51), the
discovery band (line 66), then either the no-live-hosts exit (line 80,
value 100) or 18 (line 89), 20 (line 108), the worker-drain band, 50
(line 115), 60 (line 175), 70 (line 182) and 100 (line 212). -/
def progressWrites (numNetworks totalHosts : Nat) : List Nat :=
  [0] ++ discoveryWrites numNetworks ++
    (if totalHosts = 0 then [100]
     else [18, 20] ++ hostLoopWrites totalHosts ++ [50, 60, 70, 100])

/-- A list of successive progress writes never decreases. -/
def nondecreasingList : List Nat → Bool
  | [] => true
  | [_] => true
  | a :: b :: rest => if a ≤ b then nondecreasingList (b :: rest) else false

/-- Claim C1 (code_bug evaluation): with one network and one live host the
orchestrator's progress writes are 0, 0, 18, 20, 90, 50, 60, 70, 100 —
after the worker-drain band reaches 90, the parse phase writes 50, a
decrement.  The range bound 0..100 does hold on this trace; the
monotonicity half of the claim is what the code violates. -/
theorem progressWrites_decrement :
    progressWrites 1 1 = [0, 0, 18, 20, 90, 50, 60, 70, 100] ∧
    nondecreasingList (progressWrites 1 1) = false ∧
    (progressWrites 1 1).all (fun x => x ≤ 100) = true := by
  decide

/-! ## Claim C2 — phase-4 filtering and stale-row deletion

`execute_scan` lines 141-172: keep only parsed hosts with at least one
(open) port, an OS string, or a MAC ("has_data"); then delete pre-created
`Host` rows of this scan whose IP is not among the survivors — but the
deletion is guarded by `if filtered_ips:`, so it is skipped entirely when
no host survived. -/

/-- `has_data` from orchestrator.py lines 149-153: at least one port, or a
non-empty OS string, or a non-empty MAC (`bool("")` is false in Python). -/
def hasData (h : HostData) : Bool :=
  !h.ports.isEmpty || h.os != "" || h.mac != ""

/-- The surviving-IP set of phase 4 (orchestrator.py line 160):
`{h.get("ip") for h in filtered_hosts if h.get("ip")}` — truthy IPs of the
records that passed the filter. -/
def filteredIps (hostsData : List HostData) : List String :=
  ((hostsData.filter hasData).map HostData.ip).filter (fun ip => ip ≠ "")

/-- Phase-4 effect on the `hosts` table (orchestrator.py lines 157-170):
when the surviving-IP set is non-empty, delete every row of this scan
whose IP is not in it; when it is empty, the `if filtered_ips:` guard
skips the deletion and the table is left unchanged. -/
def phase4Rows (scanId : Nat) (hostsData : List HostData)
    (rows : List HostRow) : List HostRow :=
  let ips := filteredIps hostsData
  if ips = [] then rows
  else rows.filter (fun r => !(r.scanId = scanId && !ips.contains r.ip))

/-- The parsed-hosts list surviving phase 4 (orchestrator.py line 172). -/
def phase4Hosts (hostsData : List HostData) : List HostData :=
  hostsData.filter hasData

/-- A parsed record with an IP but no ports, no OS, no MAC — the worked
example of the claim: discovery returned `192.168.1.100`, the per-host
scan found nothing. -/
def ghostRecord : HostData := { ip := "192.168.1.100" }

/-- The Host row pre-created for that IP at the end of discovery. -/
def ghostRow : HostRow :=
  { id := 1, scanId := 1, ip := "192.168.1.100",
    scanStatus := .completed, scanProgressPercent := 100 }

/-- Claim C2 (code_bug evaluation): the ghost record is dropped by the
filter, yet because the surviving set is then empty the guarded deletion
never runs, and the scan completes with its pre-created Host row still in
the table — one row, not zero as the claim requires. -/
theorem phase4_keeps_row_when_all_filtered :
    phase4Hosts [ghostRecord] = [] ∧
    phase4Rows 1 [ghostRecord] [ghostRow] = [ghostRow] ∧
    (phase4Rows 1 [ghostRecord] [ghostRow]).length ≠ 0 := by
  refine ⟨by decide, by decide, by decide⟩

/-! ## Claim C5 — `discover_hosts` liveness filter

`nmap_runner.py` lines 194-216: walk the parsed XML's host elements; a
host counts as live iff its status element's `state` attribute is `up`
and some port's state element has `state="open"`; for such a host the
first `address` element with `addrtype="ipv4"` contributes its `addr`.
The XML is modelled structurally; `status = some s` stands for "a status
element is present and carries state attribute `s`" (the code treats a
missing element and a non-`up` attribute identically), and a missing
`ports` element is the empty port list (the code only iterates it). -/

/-- One `address` element (`addrtype`, `addr` attributes). -/
structure XAddr where
  addrtype : String
  addr : String
  deriving DecidableEq, Repr

/-- One `port` element; `state` is the `state` attribute of its state
child, absent when the child element or attribute is absent. -/
structure XPort where
  state : Option String
  deriving DecidableEq, Repr

/-- One `host` element of the discovery XML. -/
structure XHost where
  status : Option String
  addresses : List XAddr
  ports : List XPort
  deriving DecidableEq, Repr

/-- `has_open_port` loop of `discover_hosts` (lines 203-209). -/
def hasOpenPort (h : XHost) : Bool :=
  h.ports.any (fun p => p.state == some "open")

/-- `host.find('address[@addrtype="ipv4"]')` followed by `.get("addr")`
(lines 213-215): the `addr` of the first ipv4 address element. -/
def firstIpv4 (h : XHost) : Option String :=
  (h.addresses.find? (fun a => a.addrtype == "ipv4")).map XAddr.addr

/-- The `ips` list built by `discover_hosts` (lines 195-216): for each
host with status `up` and an open port, append the first ipv4 address. -/
def discoverLive : List XHost → List String
  | [] => []
  | h :: rest =>
    if h.status = some "up" ∧ hasOpenPort h = true then
      match firstIpv4 h with
      | some ip => ip :: discoverLive rest
      | none => discoverLive rest
    else discoverLive rest

/-- Claim C5: the live list of `discover_hosts` contains exactly the IPv4
addresses of hosts whose status is `up` and which have at least one open
port; in particular a host with status `up` but no open port never
contributes its address. -/
theorem discoverLive_mem_iff (hosts : List XHost) (ip : String) :
    ip ∈ discoverLive hosts ↔
      ∃ h ∈ hosts, h.status = some "up" ∧ hasOpenPort h = true ∧
        firstIpv4 h = some ip := by
  induction hosts with
  | nil => simp [discoverLive]
  | cons h rest ih =>
    by_cases hc : h.status = some "up" ∧ hasOpenPort h = true
    · cases hfa : firstIpv4 h with
      | none =>
        simp only [discoverLive, if_pos hc, hfa, ih]
        constructor
        · rintro ⟨g, hg, hgp⟩
          exact ⟨g, List.mem_cons_of_mem _ hg, hgp⟩
        · rintro ⟨g, hg, hgu, hgo, hgi⟩
          rcases List.mem_cons.mp hg with rfl | hg2
          · rw [hfa] at hgi; cases hgi
          · exact ⟨g, hg2, hgu, hgo, hgi⟩
      | some a =>
        simp only [discoverLive, if_pos hc, hfa, List.mem_cons, ih]
        constructor
        · rintro (rfl | ⟨g, hg, hgp⟩)
          · exact ⟨h, Or.inl rfl, hc.1, hc.2, hfa⟩
          · exact ⟨g, Or.inr hg, hgp⟩
        · rintro ⟨g, hg, hgu, hgo, hgi⟩
          rcases hg with rfl | hg2
          · rw [hfa] at hgi
            exact Or.inl (Option.some_injective _ hgi).symm
          · exact Or.inr ⟨g, hg2, hgu, hgo, hgi⟩
    · simp only [discoverLive, if_neg hc, ih]
      constructor
      · rintro ⟨g, hg, hgp⟩
        exact ⟨g, List.mem_cons_of_mem _ hg, hgp⟩
      · rintro ⟨g, hg, hgu, hgo, hgi⟩
        rcases List.mem_cons.mp hg with rfl | hg2
        · exact absurd ⟨hgu, hgo⟩ hc
        · exact ⟨g, hg2, hgu, hgo, hgi⟩

/-- A concrete up-host with an open port on `10.0.0.7`, used to witness
claim C5's characterisation. -/
def upHostExample : XHost :=
  { status := some "up",
    addresses := [{ addrtype := "ipv4", addr := "10.0.0.7" }],
    ports := [{ state := some "open" }] }

/-- An up-host answering only closed ports: filtered out. -/
def pingOnlyHostExample : XHost :=
  { status := some "up",
    addresses := [{ addrtype := "ipv4", addr := "10.0.0.9" }],
    ports := [{ state := some "closed" }] }

/-- Witness for claim C5 at a concrete two-host document: the open-port
host's address is returned, the ping-only host's address is not. -/
theorem discoverLive_mem_iff_witness :
    "10.0.0.7" ∈ discoverLive [upHostExample, pingOnlyHostExample] ∧
    ¬ "10.0.0.9" ∈ discoverLive [upHostExample, pingOnlyHostExample] := by
  constructor
  · exact (discoverLive_mem_iff [upHostExample, pingOnlyHostExample]
      "10.0.0.7").mpr
      ⟨upHostExample, by decide, by decide, by decide, by decide⟩
  · intro hmem
    rcases (discoverLive_mem_iff [upHostExample, pingOnlyHostExample]
      "10.0.0.9").mp hmem with ⟨g, hg, hgu, hgo, hgi⟩
    rcases List.mem_cons.mp hg with rfl | hg2
    · exact absurd hgi (by decide)
    · rcases List.mem_cons.mp hg2 with rfl | hg3
      · exact absurd hgo (by decide)
      · cases hg3

/-! ## Claim C10 — the watchdog never touches terminal scans

`stuck_scan_monitor.py` lines 152-228: `check_and_fix_stuck_scans` queries
only scans whose status is `running` or `pending`, applies three
staleness checks, and flips stuck ones to `failed`.  The table is
modelled as a list of scan rows; the sweep becomes a map that rewrites
exactly the rows the query would have returned.  The diagnostics issue
list depends on the process table (psutil) and the host rows; it enters
only the error text and is abstracted as a function of the scan id. -/

/-- A row of the `scans` table (`backend/app/models/scan.py`); fields no
claim touches are elided. -/
structure ScanRow where
  id : Nat
  networkRange : String
  status : ScanStatus
  progressPercent : Nat
  progressMessage : String := ""
  errorMessage : Option String := none
  createdAt : Int
  startedAt : Option Int := none
  completedAt : Option Int := none
  updatedAt : Option Int := none
  scheduleId : Option Nat := none
  deriving DecidableEq, Repr

/-- Terminal scan statuses. -/
def ScanStatus.isTerminal : ScanStatus → Bool
  | .completed | .failed | .cancelled => true
  | _ => false

/-- The three staleness checks of `check_and_fix_stuck_scans` (lines
176-202), with `MAX_SCAN_TIME_HOURS = 6`, `MAX_STALLED_TIME_MINUTES = 30`
and the one-hour pending check; time is in seconds. -/
def stuckReason (now : Int) (s : ScanRow) : Option String :=
  if s.startedAt.isSome ∧ now - s.startedAt.getD 0 > 6 * 3600 then
    some "Scan exceeded maximum runtime"
  else if s.updatedAt.isSome ∧ now - s.updatedAt.getD 0 > 30 * 60 then
    some "No progress"
  else if s.status = .pending ∧ now - s.createdAt > 3600 then
    some "Scan stuck in pending state for over 1 hour"
  else none

/-- The update applied to one stuck scan (lines 215-219): status becomes
`failed`, `completed_at` is set to now, and the error message is built
from the reason and the diagnostics issue list. -/
def markStuckFailed (now : Int) (issues : List String) (reason : String)
    (s : ScanRow) : ScanRow :=
  { s with
    status := .failed,
    completedAt := some now,
    errorMessage :=
      some ("Scan timeout: " ++ reason ++ ". Issues: " ++
        String.intercalate ", " issues) }

/-- Effect of one watchdog sweep on one row: rows outside the
running/pending query filter (line 171-173) are untouched; queried rows
are rewritten only when one of the staleness checks fires. -/
def sweepOne (issuesOf : Nat → List String) (now : Int) (s : ScanRow) :
    ScanRow :=
  if s.status = .running ∨ s.status = .pending then
    match stuckReason now s with
    | some reason => markStuckFailed now (issuesOf s.id) reason s
    | none => s
  else s

/-- `check_and_fix_stuck_scans` over the whole scans table. -/
def checkAndFixStuckScans (issuesOf : Nat → List String) (now : Int)
    (scans : List ScanRow) : List ScanRow :=
  scans.map (sweepOne issuesOf now)

/-- Claim C10: the watchdog sweep operates only on pending/running scans;
a scan whose status is terminal is returned unchanged — same status,
`completed_at`, and `error_message` (indeed the whole row). -/
theorem checkAndFixStuckScans_terminal_unchanged
    (issuesOf : Nat → List String) (now : Int) (scans : List ScanRow) :
    List.Forall₂ (fun s t => s.status.isTerminal = true → t = s) scans
      (checkAndFixStuckScans issuesOf now scans) := by
  induction scans with
  | nil => exact List.Forall₂.nil
  | cons s rest ih =>
    refine List.Forall₂.cons ?_ ih
    intro hterm
    unfold sweepOne
    have hnot : ¬ (s.status = .running ∨ s.status = .pending) := by
      rintro (h | h) <;> rw [h] at hterm <;> cases hterm
    rw [if_neg hnot]

/-- Witness for claim C10: a completed scan that is ten hours stale is
still untouched by the sweep. -/
def staleCompletedScan : ScanRow :=
  { id := 3, networkRange := "192.168.1.0/24", status := .completed,
    progressPercent := 100, createdAt := 0, startedAt := some 0,
    updatedAt := some 0, completedAt := some 7200 }

/-- Witness for claim C10 at a concrete terminal scan and `now` far past
every staleness threshold. -/
theorem checkAndFixStuckScans_terminal_unchanged_witness :
    checkAndFixStuckScans (fun _ => []) 36000 [staleCompletedScan] =
      [staleCompletedScan] := by
  have h := checkAndFixStuckScans_terminal_unchanged
    (fun _ => []) 36000 [staleCompletedScan]
  cases h with
  | cons hs htail =>
    cases htail
    simp only [checkAndFixStuckScans, List.map]
    rw [hs (by decide)]

/-! ## Claim C4 — per-host worker error handling

`scan_single_host` (orchestrator.py lines 248-339).  The worker first
marks its row `scanning`, then calls the runner; the runner call and the
subsequent parse / database update are fallible, and the code catches
parse-or-update errors in an inner `except` (lines 308-318, marking the
host completed anyway) while any runner error falls to the outer `except`
(lines 322-336, marking the host failed).  The fallible stages become
explicit outcome parameters: `runner` is the `run_host_scan` result
(error text or XML path), `parse` the `parse_nmap_xml` result per path
(an exception or the parsed host list, already VM-classified — the
classifier rewrites only `isVm`/`vmType`), `updateOk` whether the
field-update commit succeeds, and `dnsName` the silent reverse-DNS
fallback result. -/

/-- Lines 259-262: mark the row scanning. -/
def workerMarkScanning (now : Int) (r : HostRow) : HostRow :=
  { r with
    scanStatus := .scanning, scanStartedAt := some now,
    scanProgressPercent := 50 }

/-- Lines 283-307: write the parsed details and mark completed.  The
nmap hostname is kept when non-blank, otherwise the reverse-DNS result
(or none when that lookup failed silently) is used. -/
def workerApplyData (now : Int) (dnsName : Option String) (h : HostData)
    (r : HostRow) : HostRow :=
  { r with
    hostname := if h.hostname.trim = "" then dnsName else some h.hostname,
    mac := some h.mac, vendor := some h.vendor, os := some h.os,
    osAccuracy := some h.osAccuracy, isVm := h.isVm,
    vmType := some h.vmType, portsDiscovered := h.ports.length,
    scanStatus := .completed, scanCompletedAt := some now,
    scanProgressPercent := 100 }

/-- Lines 311-318 (inner except): mark completed without data. -/
def workerMarkCompletedOnly (now : Int) (r : HostRow) : HostRow :=
  { r with
    scanStatus := .completed, scanCompletedAt := some now,
    scanProgressPercent := 100 }

/-- Lines 324-332 (outer except): mark failed with the error text. -/
def workerMarkFailed (now : Int) (e : String) (r : HostRow) : HostRow :=
  { r with
    scanStatus := .failed, scanCompletedAt := some now,
    scanErrorMessage := some e, scanProgressPercent := 0 }

/-- The per-host worker body: returns the row as left in the store and
the XML path handed back to the pool (`none` when the scan failed).  An
empty parse result (`if parsed_hosts:` false, line 270) skips both the
update and the completion marking, leaving the row scanning. -/
def scanSingleHost (now : Int) (runner : Except String String)
    (parse : String → Except String (List HostData)) (updateOk : Bool)
    (dnsName : Option String) (r : HostRow) : HostRow × Option String :=
  let r1 := workerMarkScanning now r
  match runner with
  | .error e => (workerMarkFailed now e r1, none)
  | .ok xmlPath =>
    match parse xmlPath with
    | .error _ => (workerMarkCompletedOnly now r1, some xmlPath)
    | .ok [] => (r1, some xmlPath)
    | .ok (h :: _) =>
      if updateOk then (workerApplyData now dnsName h r1, some xmlPath)
      else (workerMarkCompletedOnly now r1, some xmlPath)

/-- Claim C4: a runner error marks the host failed with the error text; a
parse or database-update error after a successful runner call still marks
it completed with `scan_completed_at` set; and a failed host can only
come from a runner error. -/
theorem scanSingleHost_outcomes (now : Int) (runner : Except String String)
    (parse : String → Except String (List HostData)) (updateOk : Bool)
    (dnsName : Option String) (r : HostRow) :
    (∀ e, runner = .error e →
      (scanSingleHost now runner parse updateOk dnsName r).1.scanStatus
          = .failed ∧
      (scanSingleHost now runner parse updateOk dnsName r).1.scanErrorMessage
          = some e) ∧
    (∀ x m, runner = .ok x → parse x = .error m →
      (scanSingleHost now runner parse updateOk dnsName r).1.scanStatus
          = .completed ∧
      (scanSingleHost now runner parse updateOk dnsName r).1.scanCompletedAt
          = some now) ∧
    (∀ x h t, runner = .ok x → parse x = .ok (h :: t) → updateOk = false →
      (scanSingleHost now runner parse updateOk dnsName r).1.scanStatus
          = .completed ∧
      (scanSingleHost now runner parse updateOk dnsName r).1.scanCompletedAt
          = some now) ∧
    ((scanSingleHost now runner parse updateOk dnsName r).1.scanStatus
        = .failed → ∃ e, runner = .error e) := by
  refine ⟨?_, ?_, ?_, ?_⟩
  · rintro e rfl
    simp [scanSingleHost, workerMarkFailed, workerMarkScanning]
  · rintro x m rfl hp
    simp [scanSingleHost, hp, workerMarkCompletedOnly, workerMarkScanning]
  · rintro x h t rfl hp rfl
    simp [scanSingleHost, hp, workerMarkCompletedOnly, workerMarkScanning]
  · intro hfail
    cases hr : runner with
    | error e => exact ⟨e, rfl⟩
    | ok x =>
      exfalso
      rw [hr] at hfail
      simp only [scanSingleHost] at hfail
      cases hp : parse x with
      | error m => rw [hp] at hfail; cases hfail
      | ok l =>
        rw [hp] at hfail
        cases l with
        | nil => cases hfail
        | cons h t =>
          cases updateOk with
          | false => simp only [Bool.false_eq_true, if_false] at hfail; cases hfail
          | true => simp only [if_true] at hfail; cases hfail

/-- A pre-created pending row used in the claim C4 witness. -/
def pendingRowExample : HostRow := { id := 2, scanId := 1, ip := "10.0.0.5" }

/-- Witness for claim C4 at concrete outcomes: a runner timeout marks the
row failed with the text; a malformed-XML parse after a successful run
marks it completed; a database-update failure after a successful run and
parse marks it completed. -/
theorem scanSingleHost_outcomes_witness :
    ((scanSingleHost 100 (.error "timeout") (fun _ => .ok []) true none
        pendingRowExample).1.scanStatus = .failed ∧
      (scanSingleHost 100 (.error "timeout") (fun _ => .ok []) true none
        pendingRowExample).1.scanErrorMessage = some "timeout") ∧
    (scanSingleHost 100 (.ok "scan_1_10_0_0_5.xml")
        (fun _ => .error "malformed") true none
        pendingRowExample).1.scanStatus = .completed ∧
    (scanSingleHost 100 (.ok "scan_1_10_0_0_5.xml")
        (fun _ => .ok [{ ip := "10.0.0.5" }]) false none
        pendingRowExample).1.scanStatus = .completed := by
  refine ⟨?_, ?_, ?_⟩
  · exact (scanSingleHost_outcomes 100 (.error "timeout") (fun _ => .ok [])
      true none pendingRowExample).1 "timeout" rfl
  · exact ((scanSingleHost_outcomes 100 (.ok "scan_1_10_0_0_5.xml")
      (fun _ => .error "malformed") true none pendingRowExample).2.1
      "scan_1_10_0_0_5.xml" "malformed" rfl rfl).1
  · exact ((scanSingleHost_outcomes 100 (.ok "scan_1_10_0_0_5.xml")
      (fun _ => .ok [{ ip := "10.0.0.5" }]) false none
      pendingRowExample).2.2.1 "scan_1_10_0_0_5.xml" { ip := "10.0.0.5" } []
      rfl rfl rfl).1

/-! ## Claim C7 — worker-pool width is the scan_parallelism setting

Phase 2 creates `ThreadPoolExecutor(max_workers=settings.scan_parallelism)`
(orchestrator.py line 341), reading the live config object that
`update_settings` (main.py line 960) rewrites; the value admitted by the
API schema is `Field(default=8, ge=1, le=32)` (schemas/settings.py lines
11-13).  The executor semantics are modelled as a step relation over the
pool's task sets *and* the scan's host rows: a task may start only while
fewer than `max_workers` run, marking its row `scanning`; a finishing
task applies the rest of the worker body to its row.  Crucially, a
worker whose parse returned no host record (`if parsed_hosts:` false,
orchestrator.py line 270) returns leaving its row in `scanning`, so rows
in `scan_status = scanning` are not the same thing as running workers. -/

/-- The live config object (config.py line 29): `scan_parallelism` with
default 8; other fields are irrelevant to the claims. -/
structure AppConfig where
  scanParallelism : Nat := 8
  deriving DecidableEq, Repr

/-- `update_settings` line 960: mutate the in-memory parallelism. -/
def updateSettingsParallelism (cfg : AppConfig) (n : Nat) : AppConfig :=
  { cfg with scanParallelism := n }

/-- Orchestrator line 341: the pool width is the config value as read at
the moment phase 2 creates the executor. -/
def poolWidth (cfg : AppConfig) : Nat := cfg.scanParallelism

/-- The API schema's field constraint on `scan_parallelism`
(`Field(default=8, ge=1, le=32)`). -/
def parallelismFieldValid (n : Int) : Bool := decide (1 ≤ n ∧ n ≤ 32)

/-- The API schema's declared default for `scan_parallelism`. -/
def parallelismFieldDefault : Int := 8

/-- The row effect of a worker's body after its initial scanning mark
(orchestrator.py lines 264-336): a runner error marks the row failed
(outer except); a parse error marks it completed (inner except); an
empty parse result takes neither branch of `if parsed_hosts:` (line
270) and returns with the row untouched — still `scanning`; a parsed
host is written and the row marked completed (or completed without data
when the update commit raises). -/
def workerFinishRow (now : Int) (runner : Except String String)
    (parse : String → Except String (List HostData)) (updateOk : Bool)
    (dnsName : Option String) (r : HostRow) : HostRow :=
  match runner with
  | .error e => workerMarkFailed now e r
  | .ok xmlPath =>
    match parse xmlPath with
    | .error _ => workerMarkCompletedOnly now r
    | .ok [] => r
    | .ok (h :: _) =>
      if updateOk then workerApplyData now dnsName h r
      else workerMarkCompletedOnly now r

/-- Splitting the worker at the subprocess call changes nothing: the row
`scan_single_host` leaves behind is the scanning-marked row passed
through `workerFinishRow`. -/
theorem scanSingleHost_eq_finishRow (now : Int)
    (runner : Except String String)
    (parse : String → Except String (List HostData)) (updateOk : Bool)
    (dnsName : Option String) (r : HostRow) :
    (scanSingleHost now runner parse updateOk dnsName r).1 =
      workerFinishRow now runner parse updateOk dnsName
        (workerMarkScanning now r) := by
  cases runner with
  | error e => rfl
  | ok x =>
    simp only [scanSingleHost, workerFinishRow]
    cases parse x with
    | error m => rfl
    | ok l =>
      cases l with
      | nil => rfl
      | cons h t => cases updateOk <;> rfl

/-- The scanning mark applied to the worker's row (the worker re-queries
by (scan_id, ip), orchestrator.py line 255; under one row per IP the map
touches exactly that row). -/
def markRowScanning (scanId : Nat) (ip : String) (now : Int)
    (rows : List HostRow) : List HostRow :=
  rows.map (fun r =>
    if r.scanId == scanId && r.ip == ip then workerMarkScanning now r
    else r)

/-- The finishing worker's writes applied to its row. -/
def finishRow (scanId : Nat) (ip : String) (now : Int)
    (runner : Except String String)
    (parse : String → Except String (List HostData)) (updateOk : Bool)
    (dnsName : Option String) (rows : List HostRow) : List HostRow :=
  rows.map (fun r =>
    if r.scanId == scanId && r.ip == ip then
      workerFinishRow now runner parse updateOk dnsName r
    else r)

/-- Phase-2 execution state: the pool's pending, running and finished
task IPs, and the scan's host rows. -/
structure PoolSimState where
  pending : List String
  running : List String
  done : List String
  rows : List HostRow
  deriving DecidableEq, Repr

/-- One scheduling step of `ThreadPoolExecutor(max_workers=w)` running
`scan_single_host` workers: a pending task starts only while fewer than
`w` run and marks its row scanning; a running task finishes with some
runner/parse/update outcome, applying the worker's remaining writes. -/
inductive HostPoolStep (w : Nat) (scanId : Nat) :
    PoolSimState → PoolSimState → Prop where
  | start (st : PoolSimState) (ip : String) (now : Int)
      (hip : ip ∈ st.pending) (hcap : st.running.length < w) :
      HostPoolStep w scanId st
        ⟨st.pending.erase ip, ip :: st.running, st.done,
          markRowScanning scanId ip now st.rows⟩
  | finish (st : PoolSimState) (ip : String) (now : Int)
      (runner : Except String String)
      (parse : String → Except String (List HostData))
      (updateOk : Bool) (dnsName : Option String)
      (hip : ip ∈ st.running) :
      HostPoolStep w scanId st
        ⟨st.pending, st.running.erase ip, ip :: st.done,
          finishRow scanId ip now runner parse updateOk dnsName st.rows⟩

/-- States reachable after phase 2 submits every live IP (orchestrator.py
line 343) against the rows pre-created at the end of discovery. -/
inductive HostPoolReach (w : Nat) (scanId : Nat) (ips : List String)
    (rows0 : List HostRow) : PoolSimState → Prop where
  | init : HostPoolReach w scanId ips rows0 ⟨ips, [], [], rows0⟩
  | step {st st2 : PoolSimState} :
      HostPoolReach w scanId ips rows0 st → HostPoolStep w scanId st st2 →
      HostPoolReach w scanId ips rows0 st2

/-- A config with `scan_parallelism = 1` for the counterexample. -/
def onePoolCfg : AppConfig := { scanParallelism := 1 }

/-- Pre-created pending row for the first live IP. -/
def rowA : HostRow := { id := 5, scanId := 1, ip := "10.0.0.1" }

/-- Pre-created pending row for the second live IP. -/
def rowB : HostRow := { id := 6, scanId := 1, ip := "10.0.0.2" }

/-- Claim C7 counterexample: with `scan_parallelism = 1` and two live
hosts, the first worker's per-host XML parses to no host records
(orchestrator.py line 270 — e.g. the host went down after discovery, and
the parser skips hosts that are not up), so the worker returns leaving
its row in `scanning`; when the second worker then starts, two rows of
the scan are simultaneously in `scan_status = scanning`, exceeding
W = 1. -/
theorem scanningRows_exceed_poolWidth :
    poolWidth onePoolCfg = 1 ∧
    ∃ st, HostPoolReach (poolWidth onePoolCfg) 1 ["10.0.0.1", "10.0.0.2"]
        [rowA, rowB] st ∧
      1 < (st.rows.filter
        (fun r => r.scanStatus == HostScanStatus.scanning)).length := by
  refine ⟨rfl, _, HostPoolReach.step (HostPoolReach.step
    (HostPoolReach.step HostPoolReach.init
      (HostPoolStep.start _ "10.0.0.1" 10 (by decide) (by decide)))
    (HostPoolStep.finish _ "10.0.0.1" 20 (.ok "scan_1_10_0_0_1.xml")
      (fun _ => .ok []) true none (by decide)))
    (HostPoolStep.start _ "10.0.0.2" 30 (by decide) (by decide)), ?_⟩
  decide

theorem reach_running_le (w scanId : Nat) (ips : List String)
    (rows0 : List HostRow) :
    ∀ st, HostPoolReach w scanId ips rows0 st → st.running.length ≤ w := by
  intro st h
  induction h with
  | init => exact Nat.zero_le _
  | step hprev hstep ih =>
    cases hstep with
    | start ip now hip hcap => simpa using hcap
    | finish ip now runner parse updateOk dnsName hip =>
      exact le_trans (List.Sublist.length_le (List.erase_sublist _ _)) ih

theorem workerFinishRow_ip (now : Int) (runner : Except String String)
    (parse : String → Except String (List HostData)) (updateOk : Bool)
    (dnsName : Option String) (r : HostRow) :
    (workerFinishRow now runner parse updateOk dnsName r).ip = r.ip := by
  cases runner with
  | error e => rfl
  | ok x =>
    simp only [workerFinishRow]
    cases parse x with
    | error m => rfl
    | ok l =>
      cases l with
      | nil => rfl
      | cons h t => cases updateOk <;> rfl

/-- Worker writes never change a row's IP, so the scan's IP column is
constant across phase 2. -/
theorem reach_rows_ips (w scanId : Nat) (ips : List String)
    (rows0 : List HostRow) :
    ∀ st, HostPoolReach w scanId ips rows0 st →
      st.rows.map HostRow.ip = rows0.map HostRow.ip := by
  intro st h
  induction h with
  | init => rfl
  | step hprev hstep ih =>
    cases hstep with
    | start ip now hip hcap =>
      show (markRowScanning scanId ip now _).map HostRow.ip = _
      rw [markRowScanning, List.map_map, ← ih]
      apply List.map_congr_left
      intro r _
      by_cases hc : (r.scanId == scanId && r.ip == ip) = true
      · simp only [Function.comp_apply, if_pos hc]; rfl
      · simp only [Function.comp_apply, if_neg hc]
    | finish ip now runner parse updateOk dnsName hip =>
      show (finishRow scanId ip now runner parse updateOk dnsName
        _).map HostRow.ip = _
      rw [finishRow, List.map_map, ← ih]
      apply List.map_congr_left
      intro r _
      by_cases hc : (r.scanId == scanId && r.ip == ip) = true
      · simp only [Function.comp_apply, if_pos hc]
        exact workerFinishRow_ip now runner parse updateOk dnsName r
      · simp only [Function.comp_apply, if_neg hc]

/-- Rows with distinct IPs restricted to IPs drawn from `s` number at
most `s.length`. -/
theorem filter_ip_mem_length_le (rows : List HostRow) (s : List String)
    (p : HostRow → Bool) (hnod : (rows.map HostRow.ip).Nodup) :
    (rows.filter (fun r => decide (r.ip ∈ s) && p r)).length ≤ s.length := by
  have hsubl : List.Sublist
      ((rows.filter (fun r => decide (r.ip ∈ s) && p r)).map HostRow.ip)
      (rows.map HostRow.ip) :=
    (List.filter_sublist rows).map HostRow.ip
  have hnod2 := hnod.sublist hsubl
  have hsub : (rows.filter (fun r => decide (r.ip ∈ s) && p r)).map
      HostRow.ip ⊆ s := by
    intro a ha
    rcases List.mem_map.mp ha with ⟨r, hr, rfl⟩
    have hcond := (List.mem_filter.mp hr).2
    rw [Bool.and_eq_true] at hcond
    exact of_decide_eq_true hcond.1
  calc (rows.filter (fun r => decide (r.ip ∈ s) && p r)).length
      = ((rows.filter (fun r => decide (r.ip ∈ s) && p r)).map
          HostRow.ip).length := (List.length_map _ _).symm
    _ ≤ s.length := (hnod2.subperm hsub).length_le

/-- Claim C7 as amended: the pool width is the current
`scan_parallelism` value read at phase-2 entry (a settings update
changes subsequent scans only); the schema gives it default 8 and
admits exactly 1..32; in every reachable phase-2 state at most W
workers run, and at most W rows of the scan are simultaneously in
`scan_status = scanning` **with their worker still running** (one
pre-created row per live IP).  Rows abandoned in `scanning` by workers
whose parse returned no host record push the total scanning count past
W (see the counterexample). -/
theorem hostPool_scanning_bound (cfg : AppConfig) (scanId : Nat)
    (ips : List String) (rows0 : List HostRow)
    (hnod : (rows0.map HostRow.ip).Nodup) :
    poolWidth cfg = cfg.scanParallelism ∧
    (∀ n, poolWidth (updateSettingsParallelism cfg n) = n) ∧
    ({} : AppConfig).scanParallelism = 8 ∧
    parallelismFieldDefault = 8 ∧
    (∀ n : Int, parallelismFieldValid n = true ↔ 1 ≤ n ∧ n ≤ 32) ∧
    (∀ st, HostPoolReach (poolWidth cfg) scanId ips rows0 st →
      st.running.length ≤ cfg.scanParallelism ∧
      (st.rows.filter (fun r => decide (r.ip ∈ st.running) &&
        (r.scanStatus == HostScanStatus.scanning))).length ≤
          cfg.scanParallelism) := by
  refine ⟨rfl, fun n => rfl, rfl, rfl, fun n => by
    simp [parallelismFieldValid], ?_⟩
  intro st hreach
  have hrun := reach_running_le (poolWidth cfg) scanId ips rows0 st hreach
  have hips := reach_rows_ips (poolWidth cfg) scanId ips rows0 st hreach
  refine ⟨hrun, ?_⟩
  have hnodst : (st.rows.map HostRow.ip).Nodup := by
    rw [hips]; exact hnod
  exact le_trans (filter_ip_mem_length_le st.rows st.running
    (fun r => r.scanStatus == HostScanStatus.scanning) hnodst) hrun

/-- Witness for the amended claim C7 at the default config: the initial
phase-2 state with one pending host is reachable, runs at most 8
workers and has at most 8 actively-scanned rows; the validator accepts
8. -/
theorem hostPool_scanning_bound_witness :
    (PoolSimState.mk ["10.0.0.1"] [] [] [rowA]).running.length ≤
        ({} : AppConfig).scanParallelism ∧
    parallelismFieldValid 8 = true := by
  constructor
  · exact ((hostPool_scanning_bound {} 1 ["10.0.0.1"] [rowA]
      (by decide)).2.2.2.2.2 _ HostPoolReach.init).1
  · exact ((hostPool_scanning_bound {} 1 ["10.0.0.1"] [rowA]
      (by decide)).2.2.2.2.1 8).mpr (by decide)

/-! ## Claim C8 — daily retention cleanup

`_cleanup_old_data` (scheduler.py lines 358-428): read the
`data_retention_days` Settings row (default 90 when absent — and with no
clamping), compute `cutoff = now - timedelta(days=retention)`, collect
the scans older than the cutoff, best-effort-delete their artifact files
from disk, then delete the artifact rows and the scan rows.  Time is in
seconds; the disk is the list of existing file paths (`os.path.exists`
guards each removal).  Host/port/traceroute children, which the claim
does not mention, are elided. -/

/-- The retention read of scheduler.py lines 366-367:
`int(setting.value) if setting else 90`.  `stored` is the parsed integer
value of the Settings row when present. -/
def retentionDays (stored : Option Int) : Int := stored.getD 90

/-- Modelled from the spec: the claim's reading "clamps the value to
1..365", stated for comparison with the code's `retentionDays`. -/
def retentionDaysClamped (stored : Option Int) : Int :=
  min 365 (max 1 (stored.getD 90))

/-- A row of the `artifacts` table; fields no claim touches are elided. -/
structure ArtifactRow where
  scanId : Nat
  filePath : String
  deriving DecidableEq, Repr

/-- Store state the cleanup job touches, plus the on-disk file set. -/
structure CleanupState where
  scans : List ScanRow
  artifacts : List ArtifactRow
  disk : List String
  deriving DecidableEq, Repr

/-- `_cleanup_old_data` as a state transformer.  The `if not old_scans:
return` early exit (line 379) is the outer `if`; otherwise the artifact
files of the old scans are removed from disk, then the artifact rows,
then the scan rows. -/
def cleanupOldData (stored : Option Int) (now : Int)
    (st : CleanupState) : CleanupState :=
  let cutoff := now - retentionDays stored * 86400
  let oldScans := st.scans.filter (fun s => decide (s.createdAt < cutoff))
  if oldScans.isEmpty then st
  else
    let oldIds := oldScans.map ScanRow.id
    let oldFiles := (st.artifacts.filter
      (fun a => decide (a.scanId ∈ oldIds))).map ArtifactRow.filePath
    { scans := st.scans.filter (fun s => !decide (s.createdAt < cutoff)),
      artifacts := st.artifacts.filter (fun a => !decide (a.scanId ∈ oldIds)),
      disk := st.disk.filter (fun f => !decide (f ∈ oldFiles)) }

/-- A scan 380 days old at cleanup time. -/
def agedScan : ScanRow :=
  { id := 11, networkRange := "10.0.0.0/24", status := .completed,
    progressPercent := 100, createdAt := 0 }

/-- Store state holding only `agedScan`, one artifact, its file on disk. -/
def agedState : CleanupState :=
  { scans := [agedScan],
    artifacts := [{ scanId := 11, filePath := "scan_11.html" }],
    disk := ["scan_11.html"] }

/-- Claim C8 counterexample: with `data_retention_days` stored as 400 the
job uses 400 unclamped; a scan 380 days old — older than the claimed
clamped cutoff of 365 days — survives the cleanup untouched, so the job
does not clamp the value to 1..365. -/
theorem cleanupOldData_no_clamp :
    retentionDays (some 400) = 400 ∧
    retentionDaysClamped (some 400) = 365 ∧
    agedScan.createdAt <
      380 * 86400 - retentionDaysClamped (some 400) * 86400 ∧
    cleanupOldData (some 400) (380 * 86400) agedState = agedState := by
  refine ⟨rfl, by decide, by decide, by decide⟩

/-- Claim C8 as amended: the job reads `data_retention_days` with default
90 (the 1..365 bound is enforced by the settings API schema at write
time, not re-applied by the job), deletes exactly the scans whose
`created_at` is before now minus the retention period, and removes the
on-disk files of their artifacts (before the scan rows are deleted). -/
theorem cleanupOldData_deletes_old_scans (stored : Option Int) (now : Int)
    (st : CleanupState) :
    (cleanupOldData stored now st).scans = st.scans.filter
      (fun s => !decide (s.createdAt < now - retentionDays stored * 86400)) ∧
    (∀ a ∈ st.artifacts, ∀ s ∈ st.scans, s.id = a.scanId →
      s.createdAt < now - retentionDays stored * 86400 →
      a ∉ (cleanupOldData stored now st).artifacts ∧
      a.filePath ∉ (cleanupOldData stored now st).disk) := by
  by_cases hempty :
      (st.scans.filter (fun s =>
        decide (s.createdAt < now - retentionDays stored * 86400))).isEmpty
  · have hnone : ∀ s ∈ st.scans,
        ¬ s.createdAt < now - retentionDays stored * 86400 := by
      intro s hs hlt
      have : s ∈ st.scans.filter (fun s =>
          decide (s.createdAt < now - retentionDays stored * 86400)) :=
        List.mem_filter.mpr ⟨hs, by simpa using hlt⟩
      rw [List.isEmpty_iff] at hempty
      rw [hempty] at this
      cases this
    constructor
    · rw [cleanupOldData, if_pos hempty]
      have : ∀ s ∈ st.scans, (!decide
          (s.createdAt < now - retentionDays stored * 86400)) = true := by
        intro s hs
        simpa using hnone s hs
      exact (List.filter_eq_self.mpr this).symm
    · intro a _ s hs _ hlt
      exact absurd hlt (hnone s hs)
  · constructor
    · rw [cleanupOldData, if_neg hempty]
    · intro a ha s hs hid hlt
      rw [cleanupOldData, if_neg hempty]
      have hsid : a.scanId ∈ (st.scans.filter (fun s =>
          decide (s.createdAt < now - retentionDays stored * 86400))).map
            ScanRow.id := by
        refine List.mem_map.mpr ⟨s, ?_, hid⟩
        exact List.mem_filter.mpr ⟨hs, by simpa using hlt⟩
      constructor
      · intro hmem
        rcases List.mem_filter.mp hmem with ⟨_, hcond⟩
        simp only [Bool.not_eq_true', decide_eq_false_iff_not] at hcond
        exact hcond hsid
      · intro hmem
        rcases List.mem_filter.mp hmem with ⟨_, hcond⟩
        simp only [Bool.not_eq_true', decide_eq_false_iff_not] at hcond
        refine hcond (List.mem_map.mpr ⟨a, ?_, rfl⟩)
        exact List.mem_filter.mpr ⟨ha, by simpa using hsid⟩

/-- Witness for the amended claim C8 at the concrete aged store with the
default (absent) setting: the 380-day-old scan is older than the 90-day
cutoff, so its row is deleted and its artifact file removed from disk. -/
theorem cleanupOldData_deletes_old_scans_witness :
    (cleanupOldData none (380 * 86400) agedState).scans = [] ∧
    "scan_11.html" ∉ (cleanupOldData none (380 * 86400) agedState).disk := by
  constructor
  · have h := (cleanupOldData_deletes_old_scans none (380 * 86400)
      agedState).1
    rw [h]
    decide
  · exact ((cleanupOldData_deletes_old_scans none (380 * 86400)
      agedState).2 { scanId := 11, filePath := "scan_11.html" }
      (by decide) agedScan (by decide) rfl (by decide)).2

/-! ## Claim C9 — manual schedule trigger

`trigger_schedule` (scheduler.py lines 147-163) looks the schedule up and
delegates to `_execute_scheduled_scan` (lines 229-286), which returns
early when the schedule is absent **or disabled**; otherwise it creates a
pending Scan row carrying the schedule's stored network-range list, sets
`last_run_at = now`, hands execution to a background thread (outside the
store model), and recomputes `next_run_at` via croniter (modelled as an
abstract `cronNext` function). -/

/-- A row of the `scan_schedules` table; fields no claim touches are
elided. -/
structure ScheduleRow where
  id : Nat
  name : String
  cronExpression : String
  networkRange : String
  enabled : Bool
  lastRunAt : Option Int := none
  nextRunAt : Option Int := none
  deriving DecidableEq, Repr

/-- Store state the scheduler touches; `nextScanId` models the
autoincrement primary key assigned on insert. -/
structure SchedulerDb where
  schedules : List ScheduleRow
  scans : List ScanRow
  nextScanId : Nat
  deriving DecidableEq, Repr

/-- The Scan row synthesized by `_execute_scheduled_scan` (lines
255-261): pending, progress 0, the schedule's stored CIDR list, and the
schedule id. -/
def scheduledScanRow (scanId : Nat) (now : Int) (sch : ScheduleRow) :
    ScanRow :=
  { id := scanId, networkRange := sch.networkRange, status := .pending,
    progressPercent := 0,
    progressMessage := "Scheduled scan: " ++ sch.name,
    createdAt := now, scheduleId := some sch.id }

/-- The `last_run_at` / `next_run_at` update applied to the fired
schedule (lines 267 and 309-320). -/
def fireScheduleRow (cronNext : String → Int → Option Int) (now : Int)
    (sch : ScheduleRow) : ScheduleRow :=
  { sch with
    lastRunAt := some now,
    nextRunAt := cronNext sch.cronExpression now }

/-- `_execute_scheduled_scan`: no-op when the schedule is absent or
disabled; otherwise insert the synthesized Scan row and update the
schedule row. -/
def executeScheduledScan (cronNext : String → Int → Option Int)
    (now : Int) (scheduleId : Nat) (db : SchedulerDb) : SchedulerDb :=
  match db.schedules.find? (fun s => s.id == scheduleId) with
  | none => db
  | some sch =>
    if sch.enabled then
      { schedules := db.schedules.map (fun s =>
          if s.id == scheduleId then fireScheduleRow cronNext now s else s),
        scans := db.scans ++ [scheduledScanRow db.nextScanId now sch],
        nextScanId := db.nextScanId + 1 }
    else db

/-- `trigger_schedule`: look the schedule up (logging and returning when
absent), then delegate to `_execute_scheduled_scan`. -/
def triggerSchedule (cronNext : String → Int → Option Int) (now : Int)
    (scheduleId : Nat) (db : SchedulerDb) : SchedulerDb :=
  match db.schedules.find? (fun s => s.id == scheduleId) with
  | none => db
  | some _ => executeScheduledScan cronNext now scheduleId db

/-- An abstract next-run calculator for the concrete examples. -/
def cronNextNone : String → Int → Option Int := fun _ _ => none

/-- A disabled schedule present in the store. -/
def disabledSchedule : ScheduleRow :=
  { id := 4, name := "nightly", cronExpression := "0 2 * * *",
    networkRange := "10.0.0.0/24", enabled := false }

/-- Store holding only the disabled schedule. -/
def disabledDb : SchedulerDb :=
  { schedules := [disabledSchedule], scans := [], nextScanId := 1 }

/-- Claim C9 counterexample: the disabled schedule is present in the
store, yet `trigger(4)` leaves the store unchanged — no Scan row is
synthesized and `last_run_at` is not updated — because
`_execute_scheduled_scan` returns early for disabled schedules. -/
theorem triggerSchedule_skips_disabled :
    triggerSchedule cronNextNone 1000 4 disabledDb = disabledDb ∧
    (triggerSchedule cronNextNone 1000 4 disabledDb).scans = [] ∧
    disabledSchedule.lastRunAt = none := by
  refine ⟨by decide, by decide, rfl⟩

/-- Auxiliary: updating the found element through a predicate-preserving
map keeps it the `find?` result. -/
theorem find?_map_ite {α : Type} (p : α → Bool) (f : α → α)
    (hpf : ∀ a, p a = true → p (f a) = true) (l : List α) (a : α)
    (h : l.find? p = some a) :
    (l.map (fun x => if p x then f x else x)).find? p = some (f a) := by
  induction l with
  | nil => cases h
  | cons x xs ih =>
    cases hpx : p x with
    | true =>
      rw [List.find?_cons_of_pos _ hpx] at h
      cases h
      simp only [List.map_cons, if_pos hpx]
      exact List.find?_cons_of_pos _ (hpf _ hpx)
    | false =>
      rw [List.find?_cons_of_neg _ (by simp [hpx])] at h
      simp only [List.map_cons, if_neg (by simp [hpx] : ¬ p x = true)]
      rw [List.find?_cons_of_neg _ (by simp [hpx])]
      exact ih h

/-- Claim C9 as amended: for every **enabled** schedule present in the
store, `trigger(id)` executes it immediately: a Scan row is appended with
status pending, progress 0, `schedule_id` set, and `network_range` equal
to the schedule's stored CIDR list, and the schedule's `last_run_at` is
set to now (with `next_run_at` recomputed). -/
theorem triggerSchedule_enabled_fires
    (cronNext : String → Int → Option Int) (now : Int) (scheduleId : Nat)
    (db : SchedulerDb) (sch : ScheduleRow)
    (hfind : db.schedules.find? (fun s => s.id == scheduleId) = some sch)
    (hen : sch.enabled = true) :
    (triggerSchedule cronNext now scheduleId db).scans =
      db.scans ++ [scheduledScanRow db.nextScanId now sch] ∧
    (scheduledScanRow db.nextScanId now sch).status = .pending ∧
    (scheduledScanRow db.nextScanId now sch).progressPercent = 0 ∧
    (scheduledScanRow db.nextScanId now sch).scheduleId = some sch.id ∧
    (scheduledScanRow db.nextScanId now sch).networkRange =
      sch.networkRange ∧
    (triggerSchedule cronNext now scheduleId db).schedules.find?
        (fun s => s.id == scheduleId) =
      some (fireScheduleRow cronNext now sch) ∧
    (fireScheduleRow cronNext now sch).lastRunAt = some now := by
  have hexec : triggerSchedule cronNext now scheduleId db =
      executeScheduledScan cronNext now scheduleId db := by
    rw [triggerSchedule, hfind]
  have hstep : executeScheduledScan cronNext now scheduleId db =
      { schedules := db.schedules.map (fun s =>
          if s.id == scheduleId then fireScheduleRow cronNext now s else s),
        scans := db.scans ++ [scheduledScanRow db.nextScanId now sch],
        nextScanId := db.nextScanId + 1 } := by
    simp [executeScheduledScan, hfind, hen]
  refine ⟨?_, rfl, rfl, rfl, rfl, ?_, rfl⟩
  · rw [hexec, hstep]
  · rw [hexec, hstep]
    exact find?_map_ite (fun s => s.id == scheduleId)
      (fireScheduleRow cronNext now) (fun a ha => ha) db.schedules sch hfind

/-- The disabled example schedule, enabled. -/
def enabledSchedule : ScheduleRow :=
  { disabledSchedule with enabled := true }

/-- Store holding only the enabled schedule. -/
def enabledDb : SchedulerDb :=
  { schedules := [enabledSchedule], scans := [], nextScanId := 1 }

/-- Witness for the amended claim C9: triggering the enabled schedule
appends exactly the pending Scan row and stamps `last_run_at`. -/
theorem triggerSchedule_enabled_fires_witness :
    (triggerSchedule cronNextNone 1000 4 enabledDb).scans =
      [scheduledScanRow 1 1000 enabledSchedule] ∧
    (triggerSchedule cronNextNone 1000 4 enabledDb).schedules.find?
        (fun s => s.id == 4) =
      some (fireScheduleRow cronNextNone 1000 enabledSchedule) := by
  have h := triggerSchedule_enabled_fires cronNextNone 1000 4 enabledDb
    enabledSchedule (by decide) rfl
  exact ⟨h.1, h.2.2.2.2.2.1⟩

/-! ## Claim C6 — phase-3 deduplication by IP

`execute_scan` lines 123-135: fold the concatenated parsed records
(discovery XMLs first, then per-host XMLs) into the dict `hosts_by_ip`;
a record with a truthy IP is inserted when its key is new and replaces
the held record only when it has strictly more ports (Python dicts keep
the original position on value replacement, and append new keys).  The
dict is modelled as an association list in insertion order. -/

/-- First-match lookup in the association list (dict indexing). -/
def lookupIp (ip : String) : List (String × HostData) → Option HostData
  | [] => none
  | e :: rest => if e.1 = ip then some e.2 else lookupIp ip rest

/-- One iteration of the dedup loop (orchestrator.py lines 125-132). -/
def dedupInsert (m : List (String × HostData)) (h : HostData) :
    List (String × HostData) :=
  if h.ip = "" then m
  else
    match m.find? (fun e => e.1 == h.ip) with
    | none => m ++ [(h.ip, h)]
    | some e =>
      if e.2.ports.length < h.ports.length then
        m.map (fun e2 => if e2.1 == h.ip then (h.ip, h) else e2)
      else m

/-- The `hosts_by_ip` dict after the whole dedup loop. -/
def hostsByIp (l : List HostData) : List (String × HostData) :=
  l.foldl dedupInsert []

/-- The deduplicated record list (`list(hosts_by_ip.values())`). -/
def dedupHosts (l : List HostData) : List HostData :=
  (hostsByIp l).map Prod.snd

/-- `h` has the (weakly) most ports within `group`. -/
def isMaxOf (group : List HostData) (h : HostData) : Bool :=
  group.all (fun g => decide (g.ports.length ≤ h.ports.length))

/-- The first record of `group` attaining the maximum port count. -/
def firstMaxRecord (group : List HostData) : Option HostData :=
  group.find? (isMaxOf group)

/-- Per-key view of the dedup loop: the record held after folding a
key's occurrences, starting from `b`. -/
def theBest (b : HostData) : List HostData → HostData
  | [] => b
  | h :: t => theBest (if b.ports.length < h.ports.length then h else b) t

/-- Per-key view of the dedup loop starting from an optional held
record. -/
def bestFold (acc : Option HostData) : List HostData → Option HostData
  | [] => acc
  | h :: t =>
    match acc with
    | none => bestFold (some h) t
    | some b =>
      bestFold (some (if b.ports.length < h.ports.length then h else b)) t

theorem bestFold_some (t : List HostData) : ∀ b : HostData,
    bestFold (some b) t = some (theBest b t) := by
  induction t with
  | nil => intro b; rfl
  | cons h t ih =>
    intro b
    simp only [bestFold, theBest]
    exact ih _

/-- The held record splits its key's occurrence list into a strictly
smaller prefix, itself, and a weakly smaller remainder. -/
theorem theBest_decomp (t : List HostData) : ∀ b : HostData,
    ∃ l1 l2, b :: t = l1 ++ theBest b t :: l2 ∧
      (∀ x ∈ l1, x.ports.length < (theBest b t).ports.length) ∧
      (∀ x ∈ b :: t, x.ports.length ≤ (theBest b t).ports.length) := by
  induction t with
  | nil =>
    intro b
    refine ⟨[], [], rfl, by simp, ?_⟩
    intro x hx
    rcases List.mem_singleton.mp hx with rfl
    exact le_refl _
  | cons h t ih =>
    intro b
    by_cases hcmp : b.ports.length < h.ports.length
    · rcases ih h with ⟨l1, l2, heq, hlt, hle⟩
      simp only [theBest, if_pos hcmp]
      refine ⟨b :: l1, l2, by rw [List.cons_append, ← heq], ?_, ?_⟩
      · intro x hx
        rcases List.mem_cons.mp hx with rfl | hx2
        · exact lt_of_lt_of_le hcmp (hle h (List.mem_cons_self h t))
        · exact hlt x hx2
      · intro x hx
        rcases List.mem_cons.mp hx with rfl | hx2
        · exact le_of_lt (lt_of_lt_of_le hcmp (hle h (List.mem_cons_self h t)))
        · exact hle x hx2
    · rcases ih b with ⟨l1, l2, heq, hlt, hle⟩
      simp only [theBest, if_neg hcmp]
      cases l1 with
      | nil =>
        rw [List.nil_append, List.cons.injEq] at heq
        refine ⟨[], h :: t, ?_, by simp, ?_⟩
        · rw [List.nil_append, ← heq.1]
        · intro x hx
          rcases List.mem_cons.mp hx with rfl | hx2
          · rw [← heq.1]
          · rcases List.mem_cons.mp hx2 with rfl | hx3
            · rw [← heq.1]; exact le_of_not_lt hcmp
            · exact hle x (List.mem_cons_of_mem b hx3)
      | cons b1 l1t =>
        rw [List.cons_append, List.cons.injEq] at heq
        refine ⟨b :: h :: l1t, l2, ?_, ?_, ?_⟩
        · rw [List.cons_append, List.cons_append, ← heq.2]
        · intro x hx
          have hblt : b.ports.length < (theBest b t).ports.length := by
            have hb1 := hlt b1 (List.mem_cons_self b1 l1t)
            rw [← heq.1] at hb1
            exact hb1
          rcases List.mem_cons.mp hx with rfl | hx2
          · exact hblt
          · rcases List.mem_cons.mp hx2 with rfl | hx3
            · exact lt_of_le_of_lt (le_of_not_lt hcmp) hblt
            · exact hlt x (List.mem_cons_of_mem b1 hx3)
        · intro x hx
          rcases List.mem_cons.mp hx with rfl | hx2
          · exact hle x (List.mem_cons_self x t)
          · rcases List.mem_cons.mp hx2 with rfl | hx3
            · exact le_trans (le_of_not_lt hcmp)
                (hle b (List.mem_cons_self b t))
            · exact hle x (List.mem_cons_of_mem b hx3)

theorem find?_prefix_fails {α : Type} (p : α → Bool) (y : α)
    (l2 : List α) : ∀ l1 : List α, (∀ x ∈ l1, p x = false) → p y = true →
    (l1 ++ y :: l2).find? p = some y := by
  intro l1
  induction l1 with
  | nil =>
    intro _ hy
    simpa [List.find?] using List.find?_cons_of_pos l2 hy
  | cons a l1t ih =>
    intro hfail hy
    rw [List.cons_append, List.find?_cons_of_neg _ (by
      simp [hfail a (List.mem_cons_self a l1t)])]
    exact ih (fun x hx => hfail x (List.mem_cons_of_mem a hx)) hy

/-- The per-key fold keeps exactly the first record attaining the
maximum port count. -/
theorem bestFold_eq_firstMax (group : List HostData) :
    bestFold none group = firstMaxRecord group := by
  cases group with
  | nil => rfl
  | cons h t =>
    rw [show bestFold none (h :: t) = bestFold (some h) t from rfl,
      bestFold_some]
    rcases theBest_decomp t h with ⟨l1, l2, heq, hlt, hle⟩
    have hbestmem : theBest h t ∈ h :: t := by
      rw [heq]
      exact List.mem_append_right l1 (List.mem_cons_self _ l2)
    have hpbest : isMaxOf (h :: t) (theBest h t) = true := by
      simp only [isMaxOf, List.all_eq_true, decide_eq_true_eq]
      exact hle
    have hpfail : ∀ x ∈ l1, isMaxOf (h :: t) x = false := by
      intro x hx
      cases hval : isMaxOf (h :: t) x with
      | false => rfl
      | true =>
        exfalso
        simp only [isMaxOf] at hval
        have hall := List.all_eq_true.mp hval (theBest h t) hbestmem
        rw [decide_eq_true_eq] at hall
        exact absurd (hlt x hx) (not_lt_of_le hall)
    simp only [heq] at hpbest hpfail
    rw [firstMaxRecord, heq]
    exact (find?_prefix_fails (isMaxOf (l1 ++ theBest h t :: l2))
      (theBest h t) l2 l1 hpfail hpbest).symm

theorem lookupIp_append_other (ip k : String) (v : HostData)
    (hk : k ≠ ip) : ∀ m : List (String × HostData),
    lookupIp ip (m ++ [(k, v)]) = lookupIp ip m := by
  intro m
  induction m with
  | nil => simp [lookupIp, hk]
  | cons e rest ih =>
    by_cases he : e.1 = ip
    · simp [lookupIp, he]
    · simp only [List.cons_append, lookupIp, if_neg he]
      exact ih

theorem lookupIp_append_self (ip : String) (v : HostData) :
    ∀ m : List (String × HostData), lookupIp ip m = none →
    lookupIp ip (m ++ [(ip, v)]) = some v := by
  intro m
  induction m with
  | nil => intro _; simp [lookupIp]
  | cons e rest ih =>
    intro hnone
    by_cases he : e.1 = ip
    · rw [lookupIp, if_pos he] at hnone; cases hnone
    · rw [lookupIp, if_neg he] at hnone
      rw [List.cons_append, lookupIp, if_neg he]
      exact ih hnone

theorem lookupIp_map_other (ip k : String) (x : HostData) (hk : k ≠ ip) :
    ∀ m : List (String × HostData),
    lookupIp ip (m.map (fun e2 => if e2.1 == k then (k, x) else e2)) =
      lookupIp ip m := by
  intro m
  induction m with
  | nil => rfl
  | cons e rest ih =>
    by_cases he : e.1 = ip
    · have hek : (e.1 == k) = false := by
        simp only [beq_eq_false_iff_ne, ne_eq]
        rw [he]; exact fun h2 => hk h2.symm
      simp only [List.map_cons, hek, Bool.false_eq_true, if_false,
        lookupIp, if_pos he]
    · cases hek : e.1 == k with
      | true =>
        simp only [List.map_cons, hek, if_true, lookupIp,
          if_neg (fun h2 : k = ip => hk h2), if_neg he]
        exact ih
      | false =>
        simp only [List.map_cons, hek, Bool.false_eq_true, if_false,
          lookupIp, if_neg he]
        exact ih

theorem lookupIp_map_self (ip : String) (x b : HostData) :
    ∀ m : List (String × HostData), lookupIp ip m = some b →
    lookupIp ip (m.map (fun e2 => if e2.1 == ip then (ip, x) else e2)) =
      some x := by
  intro m
  induction m with
  | nil => intro h; cases h
  | cons e rest ih =>
    intro hsome
    by_cases he : e.1 = ip
    · have hbe : (e.1 == ip) = true := beq_iff_eq.mpr he
      simp [lookupIp, hbe]
    · rw [lookupIp, if_neg he] at hsome
      cases hek : e.1 == ip with
      | true => exact absurd (beq_iff_eq.mp hek) he
      | false =>
        simp only [List.map_cons, hek, Bool.false_eq_true, if_false,
          lookupIp, if_neg he]
        exact ih hsome

theorem lookupIp_eq_find (ip : String) :
    ∀ m : List (String × HostData),
    lookupIp ip m = (m.find? (fun e => e.1 == ip)).map Prod.snd := by
  intro m
  induction m with
  | nil => rfl
  | cons e rest ih =>
    by_cases he : e.1 = ip
    · simp [lookupIp, he]
    · rw [lookupIp, if_neg he,
        List.find?_cons_of_neg _ (by simpa using he)]
      exact ih

/-- One dict step equals one per-key step on the key's own bucket. -/
theorem bestFold_cons (acc : Option HostData) (h : HostData)
    (rest : List HostData) :
    bestFold acc (h :: rest) = bestFold (bestFold acc [h]) rest := by
  cases acc <;> rfl

/-- Per-key correspondence between the dict fold and the per-key fold. -/
theorem lookupIp_foldl (ip : String) (hip : ip ≠ "") :
    ∀ (l : List HostData) (m : List (String × HostData)),
    lookupIp ip (l.foldl dedupInsert m) =
      bestFold (lookupIp ip m) (l.filter (fun h => h.ip == ip)) := by
  intro l
  induction l with
  | nil => intro m; rfl
  | cons h t ih =>
    intro m
    by_cases hhip : h.ip = ip
    · subst hhip
      have hfil : (h :: t).filter (fun g => g.ip == h.ip) =
          h :: t.filter (fun g => g.ip == h.ip) := by
        simp [List.filter_cons]
      have hkey : lookupIp h.ip (dedupInsert m h) =
          bestFold (lookupIp h.ip m) [h] := by
        rw [dedupInsert, if_neg hip]
        cases hfind : m.find? (fun e => e.1 == h.ip) with
        | none =>
          show lookupIp h.ip (m ++ [(h.ip, h)]) =
            bestFold (lookupIp h.ip m) [h]
          have hnone : lookupIp h.ip m = none := by
            rw [lookupIp_eq_find, hfind, Option.map_none']
          rw [hnone, lookupIp_append_self h.ip h m hnone]
          rfl
        | some e =>
          show lookupIp h.ip
              (if e.2.ports.length < h.ports.length then
                m.map (fun e2 => if e2.1 == h.ip then (h.ip, h) else e2)
              else m) =
            bestFold (lookupIp h.ip m) [h]
          have hsome : lookupIp h.ip m = some e.2 := by
            rw [lookupIp_eq_find, hfind, Option.map_some']
          by_cases hcmp : e.2.ports.length < h.ports.length
          · rw [if_pos hcmp, hsome,
              lookupIp_map_self h.ip h e.2 m hsome]
            simp only [bestFold, if_pos hcmp]
          · rw [if_neg hcmp, hsome]
            simp only [bestFold, if_neg hcmp]
      rw [List.foldl_cons, ih (dedupInsert m h), hfil, bestFold_cons, hkey]
    · have hfil : (h :: t).filter (fun g => g.ip == ip) =
          t.filter (fun g => g.ip == ip) := by
        simp [List.filter_cons, hhip]
      have hsame : lookupIp ip (dedupInsert m h) = lookupIp ip m := by
        rw [dedupInsert]
        by_cases hempty : h.ip = ""
        · rw [if_pos hempty]
        · rw [if_neg hempty]
          cases hfind : m.find? (fun e => e.1 == h.ip) with
          | none =>
            show lookupIp ip (m ++ [(h.ip, h)]) = lookupIp ip m
            exact lookupIp_append_other ip h.ip h hhip m
          | some e =>
            show lookupIp ip
                (if e.2.ports.length < h.ports.length then
                  m.map (fun e2 => if e2.1 == h.ip then (h.ip, h) else e2)
                else m) =
              lookupIp ip m
            by_cases hcmp : e.2.ports.length < h.ports.length
            · rw [if_pos hcmp]
              exact lookupIp_map_other ip h.ip h hhip m
            · rw [if_neg hcmp]
      rw [List.foldl_cons, ih (dedupInsert m h), hfil, hsame]

/-- The discovery-scan record of the worked example: `10.0.0.5`, 0
ports. -/
def discoveryRec : HostData := { ip := "10.0.0.5" }

/-- The per-host record of the worked example: `10.0.0.5`, 3 ports. -/
def detailedRec : HostData :=
  { ip := "10.0.0.5",
    ports := [{ port := "22", protocol := "tcp", service := "ssh" },
      { port := "80", protocol := "tcp", service := "http" },
      { port := "443", protocol := "tcp", service := "https" }] }

/-- Claim C6: for every IP, the dedup dict keeps the first record in
concatenation order attaining the maximum port count — strictly more
ports replace, ties keep the earlier record; in the worked example the
3-port per-host record supersedes the 0-port discovery record. -/
theorem dedupHosts_keeps_most_ports (l : List HostData) (ip : String)
    (hip : ip ≠ "") :
    lookupIp ip (hostsByIp l) =
      firstMaxRecord (l.filter (fun h => h.ip == ip)) ∧
    lookupIp "10.0.0.5" (hostsByIp [discoveryRec, detailedRec]) =
      some detailedRec ∧
    detailedRec.ports.length = 3 := by
  refine ⟨?_, by decide, rfl⟩
  rw [hostsByIp, lookupIp_foldl ip hip l []]
  exact bestFold_eq_firstMax _

/-- Witness for claim C6 at the worked example: the record surviving for
`10.0.0.5` out of [0-port discovery record, 3-port detailed record] is
the first maximal one — the detailed record. -/
theorem dedupHosts_keeps_most_ports_witness :
    lookupIp "10.0.0.5" (hostsByIp [discoveryRec, detailedRec]) =
      firstMaxRecord ([discoveryRec, detailedRec].filter
        (fun h => h.ip == "10.0.0.5")) := by
  exact (dedupHosts_keeps_most_ports [discoveryRec, detailedRec]
    "10.0.0.5" (by decide)).1

/-! ## Claim C3 — ports_discovered vs. Port rows

Two places write `ports_discovered`: the per-host worker
(orchestrator.py line 301) sets it to the parsed port count when it
marks the host completed — while Port rows are only inserted later, in
phase 5 — and `_save_hosts_to_db` (lines 366-423) sets it again on the
matched row and inserts exactly the record's Port rows.  The store is a
host table, a port table, and an autoincrement counter for the ids
`db.flush()` assigns to rows created on the not-found path. -/

/-- A row of the `ports` table (`backend/app/models/port.py`); service
detail fields no claim touches are elided.  `int(port_data.get("port",
0))` parses the XML's digit string. -/
structure PortRow where
  hostId : Nat
  port : Nat
  protocol : String
  service : Option String := none
  deriving DecidableEq, Repr

/-- The store slice `_save_hosts_to_db` touches. -/
structure ScanDb where
  hosts : List HostRow
  ports : List PortRow
  nextId : Nat
  deriving DecidableEq, Repr

/-- The Port row built at orchestrator.py lines 409-421. -/
def mkPortRow (hostId : Nat) (p : PortData) : PortRow :=
  { hostId := hostId, port := p.port.toNat?.getD 0,
    protocol := p.protocol, service := some p.service }

/-- The field update of orchestrator.py lines 381-393: overwrite the
parsed fields and set `ports_discovered` to the record's port count.
`id`, `scan_id`, `ip` and the worker-lifecycle fields are untouched. -/
def saveUpdateHost (h : HostData) (r : HostRow) : HostRow :=
  { r with
    hostname := some h.hostname, mac := some h.mac,
    vendor := some h.vendor, os := some h.os,
    osAccuracy := some h.osAccuracy, isVm := h.isVm,
    vmType := some h.vmType, portsDiscovered := h.ports.length }

/-- One iteration of the `_save_hosts_to_db` loop: find the host row by
(scan_id, ip); update it in place when found, otherwise create it with
the next fresh id; then insert one Port row per parsed port. -/
def saveHostStep (scanId : Nat) (db : ScanDb) (h : HostData) : ScanDb :=
  match db.hosts.find? (fun r => r.scanId == scanId && r.ip == h.ip) with
  | some r =>
    { hosts := db.hosts.map
        (fun r0 => if r0.id == r.id then saveUpdateHost h r0 else r0),
      ports := db.ports ++ h.ports.map (mkPortRow r.id),
      nextId := db.nextId }
  | none =>
    { hosts := db.hosts ++
        [saveUpdateHost h { id := db.nextId, scanId := scanId, ip := h.ip }],
      ports := db.ports ++ h.ports.map (mkPortRow db.nextId),
      nextId := db.nextId + 1 }

/-- `_save_hosts_to_db` over the surviving parsed records. -/
def saveHostsToDb (scanId : Nat) (hostsData : List HostData)
    (db : ScanDb) : ScanDb :=
  hostsData.foldl (saveHostStep scanId) db

/-- Store well-formedness: row ids are distinct primary keys below the
autoincrement counter, and port rows reference only assigned ids. -/
def WfDb (db : ScanDb) : Prop :=
  (db.hosts.map HostRow.id).Nodup ∧
  (∀ r ∈ db.hosts, r.id < db.nextId) ∧
  (∀ p ∈ db.ports, p.hostId < db.nextId)

/-- The parsed single-port record of the counterexample. -/
def onePortRec : HostData :=
  { ip := "10.0.0.5",
    ports := [{ port := "22", protocol := "tcp", service := "ssh" }] }

/-- Claim C3 counterexample: at the moment the worker marks its host
completed (orchestrator.py lines 294-307) it has already written
`ports_discovered = 1`, but no Port row exists yet — phase 5 has not
run, so the port table is still empty and the claimed equality fails in
the window between worker completion and phase-5 persistence. -/
theorem portsDiscovered_stale_before_persistence :
    (workerApplyData 100 none onePortRec pendingRowExample).scanStatus
        = .completed ∧
    (workerApplyData 100 none onePortRec pendingRowExample).portsDiscovered
        = 1 ∧
    (([] : List PortRow).filter
      (fun p => p.hostId == pendingRowExample.id)).length = 0 ∧
    (1 : Nat) ≠ 0 := by
  refine ⟨rfl, rfl, rfl, by decide⟩

theorem mapPorts_filter_ne (k rid : Nat) (hk : k ≠ rid)
    (ps : List PortData) :
    (ps.map (mkPortRow k)).filter (fun p => p.hostId == rid) = [] := by
  rw [List.filter_eq_nil_iff]
  intro p hp
  rcases List.mem_map.mp hp with ⟨x, _, rfl⟩
  simp [mkPortRow, hk]

theorem mapPorts_filter_eq (k : Nat) (ps : List PortData) :
    (ps.map (mkPortRow k)).filter (fun p => p.hostId == k) =
      ps.map (mkPortRow k) := by
  rw [List.filter_eq_self]
  intro p hp
  rcases List.mem_map.mp hp with ⟨x, _, rfl⟩
  simp [mkPortRow]

theorem updOrKeep_fields (g : HostData) (rid : Nat) (r0 : HostRow) :
    (if r0.id == rid then saveUpdateHost g r0 else r0).id = r0.id ∧
    (if r0.id == rid then saveUpdateHost g r0 else r0).scanId = r0.scanId ∧
    (if r0.id == rid then saveUpdateHost g r0 else r0).ip = r0.ip := by
  by_cases hc : (r0.id == rid) = true
  · rw [if_pos hc]; exact ⟨rfl, rfl, rfl⟩
  · rw [if_neg hc]; exact ⟨rfl, rfl, rfl⟩

theorem wf_saveHostStep (scanId : Nat) (db : ScanDb) (g : HostData)
    (hwf : WfDb db) : WfDb (saveHostStep scanId db g) := by
  obtain ⟨hnod, hidlt, hplt⟩ := hwf
  cases hfind : db.hosts.find?
      (fun r0 => r0.scanId == scanId && r0.ip == g.ip) with
  | some rf =>
    have hEq : saveHostStep scanId db g =
        { hosts := db.hosts.map
            (fun r0 => if r0.id == rf.id then saveUpdateHost g r0 else r0),
          ports := db.ports ++ g.ports.map (mkPortRow rf.id),
          nextId := db.nextId } := by
      rw [saveHostStep, hfind]
    have hrfmem := List.mem_of_find?_eq_some hfind
    rw [hEq]
    refine ⟨?_, ?_, ?_⟩
    · have hmapid : (db.hosts.map (fun r0 =>
          if r0.id == rf.id then saveUpdateHost g r0 else r0)).map
            HostRow.id = db.hosts.map HostRow.id := by
        rw [List.map_map]
        apply List.map_congr_left
        intro r0 _
        exact (updOrKeep_fields g rf.id r0).1
      exact hmapid ▸ hnod
    · intro r hrm
      rcases List.mem_map.mp hrm with ⟨r0, hr0, rfl⟩
      rw [(updOrKeep_fields g rf.id r0).1]
      exact hidlt r0 hr0
    · intro p hp
      rcases List.mem_append.mp hp with hp1 | hp2
      · exact hplt p hp1
      · rcases List.mem_map.mp hp2 with ⟨x, _, rfl⟩
        exact hidlt rf hrfmem
  | none =>
    have hEq : saveHostStep scanId db g =
        { hosts := db.hosts ++
            [saveUpdateHost g
              { id := db.nextId, scanId := scanId, ip := g.ip }],
          ports := db.ports ++ g.ports.map (mkPortRow db.nextId),
          nextId := db.nextId + 1 } := by
      rw [saveHostStep, hfind]
    rw [hEq]
    refine ⟨?_, ?_, ?_⟩
    · rw [List.map_append, List.nodup_append]
      refine ⟨hnod, List.nodup_singleton _, ?_⟩
      intro a ha hb
      rcases List.mem_map.mp ha with ⟨r0, hr0, rfl⟩
      simp only [List.map_cons, List.map_nil, List.mem_singleton] at hb
      exact absurd (hidlt r0 hr0) (by rw [hb]; exact lt_irrefl _)
    · intro r hrm
      rcases List.mem_append.mp hrm with h1 | h2
      · exact lt_trans (hidlt r h1) (Nat.lt_succ_self _)
      · rw [List.mem_singleton] at h2
        rw [h2]
        exact Nat.lt_succ_self _
    · intro p hp
      rcases List.mem_append.mp hp with h1 | h2
      · exact lt_trans (hplt p h1) (Nat.lt_succ_self _)
      · rcases List.mem_map.mp h2 with ⟨x, _, rfl⟩
        exact Nat.lt_succ_self _

/-- Rows whose IP is not among the remaining records keep their Port-row
set (and stay in the table) across the rest of the fold. -/
theorem saveHosts_untouched (scanId : Nat) (l : List HostData) :
    ∀ (db : ScanDb) (r : HostRow), WfDb db → r ∈ db.hosts →
    (∀ g ∈ l, g.ip ≠ r.ip) →
    r ∈ (l.foldl (saveHostStep scanId) db).hosts ∧
    (l.foldl (saveHostStep scanId) db).ports.filter
        (fun p => p.hostId == r.id) =
      db.ports.filter (fun p => p.hostId == r.id) := by
  induction l with
  | nil => intro db r _ hr _; exact ⟨hr, rfl⟩
  | cons g t ih =>
    intro db r hwf hr hne
    rw [List.foldl_cons]
    have hstep : r ∈ (saveHostStep scanId db g).hosts ∧
        (saveHostStep scanId db g).ports.filter
            (fun p => p.hostId == r.id) =
          db.ports.filter (fun p => p.hostId == r.id) := by
      cases hfind : db.hosts.find?
          (fun r0 => r0.scanId == scanId && r0.ip == g.ip) with
      | some rf =>
        have hEq : saveHostStep scanId db g =
            { hosts := db.hosts.map (fun r0 =>
                if r0.id == rf.id then saveUpdateHost g r0 else r0),
              ports := db.ports ++ g.ports.map (mkPortRow rf.id),
              nextId := db.nextId } := by
          rw [saveHostStep, hfind]
        have hrfmem := List.mem_of_find?_eq_some hfind
        have hpred := List.find?_some hfind
        rw [Bool.and_eq_true, beq_iff_eq, beq_iff_eq] at hpred
        have hrne : rf.id ≠ r.id := by
          intro hEq2
          have hsame : rf = r :=
            List.inj_on_of_nodup_map hwf.1 hrfmem hr hEq2
          exact hne g (List.mem_cons_self g t)
            (by rw [← hpred.2, hsame])
        rw [hEq]
        constructor
        · refine List.mem_map.mpr ⟨r, hr, ?_⟩
          rw [if_neg (by simp [Ne.symm hrne])]
        · rw [List.filter_append,
            mapPorts_filter_ne rf.id r.id hrne g.ports, List.append_nil]
      | none =>
        have hEq : saveHostStep scanId db g =
            { hosts := db.hosts ++
                [saveUpdateHost g
                  { id := db.nextId, scanId := scanId, ip := g.ip }],
              ports := db.ports ++ g.ports.map (mkPortRow db.nextId),
              nextId := db.nextId + 1 } := by
          rw [saveHostStep, hfind]
        rw [hEq]
        constructor
        · exact List.mem_append_left _ hr
        · have hne2 : db.nextId ≠ r.id := by
            intro hEq2
            exact absurd (hwf.2.1 r hr) (by rw [← hEq2]; exact lt_irrefl _)
          rw [List.filter_append,
            mapPorts_filter_ne db.nextId r.id hne2 g.ports, List.append_nil]
    rcases hstep with ⟨hmem1, hports1⟩
    rcases ih (saveHostStep scanId db g) r (wf_saveHostStep scanId db g hwf)
      hmem1 (fun x hx => hne x (List.mem_cons_of_mem g hx)) with ⟨hm, hp⟩
    exact ⟨hm, by rw [hp, hports1]⟩

/-- After one step, rows of this scan whose IP is still to be processed
remain Port-row-free. -/
theorem clean_saveHostStep (scanId : Nat) (db : ScanDb) (g : HostData)
    (t : List HostData) (hwf : WfDb db)
    (hgnotin : g.ip ∉ t.map HostData.ip)
    (hclean : ∀ r ∈ db.hosts, r.scanId = scanId →
      r.ip ∈ (g :: t).map HostData.ip →
      db.ports.filter (fun p => p.hostId == r.id) = []) :
    ∀ r ∈ (saveHostStep scanId db g).hosts, r.scanId = scanId →
      r.ip ∈ t.map HostData.ip →
      (saveHostStep scanId db g).ports.filter
        (fun p => p.hostId == r.id) = [] := by
  cases hfind : db.hosts.find?
      (fun r0 => r0.scanId == scanId && r0.ip == g.ip) with
  | some rf =>
    have hEq : saveHostStep scanId db g =
        { hosts := db.hosts.map (fun r0 =>
            if r0.id == rf.id then saveUpdateHost g r0 else r0),
          ports := db.ports ++ g.ports.map (mkPortRow rf.id),
          nextId := db.nextId } := by
      rw [saveHostStep, hfind]
    have hrfmem := List.mem_of_find?_eq_some hfind
    have hpred := List.find?_some hfind
    rw [Bool.and_eq_true, beq_iff_eq, beq_iff_eq] at hpred
    rw [hEq]
    intro r hrm hscan hip
    rcases List.mem_map.mp hrm with ⟨r0, hr0, rfl⟩
    obtain ⟨hid0, hsc0, hip0⟩ := updOrKeep_fields g rf.id r0
    rw [hid0, List.filter_append]
    have h1 : db.ports.filter (fun p => p.hostId == r0.id) = [] := by
      refine hclean r0 hr0 (by rw [← hsc0]; exact hscan) ?_
      rw [List.map_cons]
      exact List.mem_cons.mpr (Or.inr (by rw [← hip0]; exact hip))
    have hne : rf.id ≠ r0.id := by
      intro hEq2
      have hsame : rf = r0 :=
        List.inj_on_of_nodup_map hwf.1 hrfmem hr0 hEq2
      refine hgnotin ?_
      rw [← hpred.2, hsame, ← hip0]
      exact hip
    rw [h1, mapPorts_filter_ne rf.id r0.id hne g.ports, List.append_nil]
  | none =>
    have hEq : saveHostStep scanId db g =
        { hosts := db.hosts ++
            [saveUpdateHost g
              { id := db.nextId, scanId := scanId, ip := g.ip }],
          ports := db.ports ++ g.ports.map (mkPortRow db.nextId),
          nextId := db.nextId + 1 } := by
      rw [saveHostStep, hfind]
    rw [hEq]
    intro r hrm hscan hip
    rcases List.mem_append.mp hrm with h1 | h2
    · rw [List.filter_append]
      have hcl : db.ports.filter (fun p => p.hostId == r.id) = [] := by
        refine hclean r h1 hscan ?_
        rw [List.map_cons]
        exact List.mem_cons.mpr (Or.inr hip)
      have hne2 : db.nextId ≠ r.id := by
        intro hEq2
        exact absurd (hwf.2.1 r h1) (by rw [← hEq2]; exact lt_irrefl _)
      rw [hcl, mapPorts_filter_ne db.nextId r.id hne2 g.ports,
        List.append_nil]
    · rw [List.mem_singleton] at h2
      subst h2
      exact absurd hip hgnotin

/-- One step settles its own record: the matched (or created) row ends
with `ports_discovered` equal to the record's port count and exactly the
record's Port rows referencing it. -/
theorem settle_saveHostStep (scanId : Nat) (db : ScanDb) (g : HostData)
    (hwf : WfDb db)
    (hclean : ∀ r ∈ db.hosts, r.scanId = scanId → r.ip = g.ip →
      db.ports.filter (fun p => p.hostId == r.id) = []) :
    ∃ r1, r1 ∈ (saveHostStep scanId db g).hosts ∧ r1.scanId = scanId ∧
      r1.ip = g.ip ∧ r1.portsDiscovered = g.ports.length ∧
      (saveHostStep scanId db g).ports.filter
          (fun p => p.hostId == r1.id) =
        g.ports.map (mkPortRow r1.id) := by
  cases hfind : db.hosts.find?
      (fun r0 => r0.scanId == scanId && r0.ip == g.ip) with
  | some rf =>
    have hEq : saveHostStep scanId db g =
        { hosts := db.hosts.map (fun r0 =>
            if r0.id == rf.id then saveUpdateHost g r0 else r0),
          ports := db.ports ++ g.ports.map (mkPortRow rf.id),
          nextId := db.nextId } := by
      rw [saveHostStep, hfind]
    have hrfmem := List.mem_of_find?_eq_some hfind
    have hpred := List.find?_some hfind
    rw [Bool.and_eq_true, beq_iff_eq, beq_iff_eq] at hpred
    rw [hEq]
    refine ⟨saveUpdateHost g rf, ?_, hpred.1, hpred.2, rfl, ?_⟩
    · exact List.mem_map.mpr ⟨rf, hrfmem, by simp⟩
    · have hid : (saveUpdateHost g rf).id = rf.id := rfl
      rw [hid, List.filter_append, hclean rf hrfmem hpred.1 hpred.2,
        mapPorts_filter_eq rf.id g.ports, List.nil_append]
  | none =>
    have hEq : saveHostStep scanId db g =
        { hosts := db.hosts ++
            [saveUpdateHost g
              { id := db.nextId, scanId := scanId, ip := g.ip }],
          ports := db.ports ++ g.ports.map (mkPortRow db.nextId),
          nextId := db.nextId + 1 } := by
      rw [saveHostStep, hfind]
    rw [hEq]
    refine ⟨saveUpdateHost g
      { id := db.nextId, scanId := scanId, ip := g.ip },
      List.mem_append_right _ (List.mem_singleton_self _),
      rfl, rfl, rfl, ?_⟩
    have hid : (saveUpdateHost g
        { id := db.nextId, scanId := scanId, ip := g.ip }).id =
      db.nextId := rfl
    have hold : db.ports.filter (fun p => p.hostId == db.nextId) = [] := by
      rw [List.filter_eq_nil_iff]
      intro p hp
      simp only [beq_iff_eq]
      exact Nat.ne_of_lt (hwf.2.2 p hp)
    rw [hid, List.filter_append, hold,
      mapPorts_filter_eq db.nextId g.ports, List.nil_append]

/-- Claim C3 as amended: after `_save_hosts_to_db` (phase 5), every
persisted record has a row of this scan with its IP whose
`ports_discovered` equals the number of Port rows referencing that row —
given distinct record IPs (guaranteed by phase-3 dedup), a well-formed
store, and no pre-existing Port rows for this scan's rows (no earlier
phase inserts any).  Between a worker marking a host completed and this
phase, the equality does not hold (see the counterexample). -/
theorem saveHostsToDb_ports_consistent (scanId : Nat) :
    ∀ (l : List HostData) (db : ScanDb), WfDb db →
    (l.map HostData.ip).Nodup →
    (∀ r ∈ db.hosts, r.scanId = scanId → r.ip ∈ l.map HostData.ip →
      db.ports.filter (fun p => p.hostId == r.id) = []) →
    ∀ h ∈ l, ∃ r,
      r ∈ (saveHostsToDb scanId l db).hosts ∧ r.scanId = scanId ∧
      r.ip = h.ip ∧ r.portsDiscovered = h.ports.length ∧
      ((saveHostsToDb scanId l db).ports.filter
        (fun p => p.hostId == r.id)).length = h.ports.length := by
  intro l
  induction l with
  | nil => intro db _ _ _ h hm; cases hm
  | cons g t ih =>
    intro db hwf hnodup hclean h hm
    rw [List.map_cons] at hnodup
    have hgnotin : g.ip ∉ t.map HostData.ip := (List.nodup_cons.mp hnodup).1
    have hwf1 := wf_saveHostStep scanId db g hwf
    have hfold : saveHostsToDb scanId (g :: t) db =
        t.foldl (saveHostStep scanId) (saveHostStep scanId db g) := rfl
    rcases List.mem_cons.mp hm with rfl | hmt
    · have hcleang : ∀ r ∈ db.hosts, r.scanId = scanId → r.ip = h.ip →
          db.ports.filter (fun p => p.hostId == r.id) = [] := by
        intro r hr hsc hip
        refine hclean r hr hsc ?_
        rw [List.map_cons]
        exact List.mem_cons.mpr (Or.inl hip)
      rcases settle_saveHostStep scanId db h hwf hcleang with
        ⟨r1, hr1mem, hr1sc, hr1ip, hr1pd, hr1ports⟩
      rcases saveHosts_untouched scanId t (saveHostStep scanId db h) r1
        hwf1 hr1mem (by
          intro x hx hEq2
          refine hgnotin ?_
          rw [← hr1ip, ← hEq2]
          exact List.mem_map.mpr ⟨x, hx, rfl⟩) with ⟨hmemF, hportsF⟩
      refine ⟨r1, hfold ▸ hmemF, hr1sc, hr1ip, hr1pd, ?_⟩
      rw [hfold, hportsF, hr1ports, List.length_map]
    · have hclean1 := clean_saveHostStep scanId db g t hwf hgnotin hclean
      have hnod1 : (t.map HostData.ip).Nodup := (List.nodup_cons.mp hnodup).2
      rcases ih (saveHostStep scanId db g) hwf1 hnod1 hclean1 h hmt with
        ⟨r, hrm, hsc, hip, hpd, hlen⟩
      exact ⟨r, hfold ▸ hrm, hsc, hip, hpd, hfold ▸ hlen⟩

/-- The store as phase 5 finds it in the counterexample scenario: the
pre-created host row, no Port rows yet. -/
def preSaveDb : ScanDb :=
  { hosts := [{ id := 2, scanId := 1, ip := "10.0.0.5" }],
    ports := [], nextId := 3 }

/-- Witness for the amended claim C3: persisting the single-port record
restores the invariant — the row for `10.0.0.5` ends with
`ports_discovered = 1` and exactly one Port row referencing it. -/
theorem saveHostsToDb_ports_consistent_witness :
    ∃ r, r ∈ (saveHostsToDb 1 [onePortRec] preSaveDb).hosts ∧
      r.scanId = 1 ∧ r.ip = "10.0.0.5" ∧ r.portsDiscovered = 1 ∧
      ((saveHostsToDb 1 [onePortRec] preSaveDb).ports.filter
        (fun p => p.hostId == r.id)).length = 1 := by
  exact saveHostsToDb_ports_consistent 1 [onePortRec] preSaveDb
    ⟨by decide, by decide, by decide⟩ (by decide)
    (fun r _ _ _ => rfl) onePortRec (List.mem_singleton_self _)

end NetScan
